import Mathlib

/-!
# Verification of a CHIP-8 virtual machine core

A shallow embedding of the emulator's core (`src/chip8.rs` and its
submodules `stack.rs`, `rng.rs`, `display.rs`) in Lean, together with
theorems settling the specification's claims about it.

Modelling conventions:
* machine integers are `Nat` with explicit `% 2^w` where the Rust code
  wraps (u8 arithmetic is `% 256`, u16 is `% 65536`);
* the 4096-byte memory, the 16 registers and the 32×64 frame buffer are
  total functions (`Nat → Nat`, `Nat → Nat → Bool`); reads the Rust code
  performs through a bounds-checked array index are guarded exactly where
  the Rust program would abort, and such aborts are surfaced as
  `Except.error`;
* `debug_assert!` checks that exist only in debug builds are modelled by
  a `dbg : Bool` parameter on the affected handlers; checks that abort in
  every build (slice indexing out of range) are unconditional;
* collaborators (keypad, audio sink) appear as abstract state fields.
-/

namespace Chip8

/-- Pointwise update of a register/memory file. -/
def updf (f : Nat → Nat) (i v : Nat) : Nat → Nat :=
  fun j => if j = i then v else f j

/-- Pointwise update of the frame buffer at row `r`, column `c`. -/
def updfb (fb : Nat → Nat → Bool) (r c : Nat) (b : Bool) : Nat → Nat → Bool :=
  fun r' c' => if r' = r ∧ c' = c then b else fb r' c'

/-- The fatal conditions of the interpreter: each constructor is one of
the abort sites of the Rust code (an explicit `panic!`, a firing
`debug_assert!`, or an out-of-range array/slice index). The
`unsupportedOpcode` aborts carry the raw 16-bit opcode, as the Rust
message `"{}: Unsupported opcode!"` does. -/
inductive VMError where
  | unsupportedOpcode (op : Nat)
  | stackOverflow
  | stackUnderflow
  | memOutOfBounds
  | invalidAddress (addr : Nat)
  | invalidOpIndex (op : Nat)
  | invalidSprite (op : Nat)
  | keypadOutOfRange
  | addOverflow
deriving DecidableEq

/-- `stack.rs`: a fixed array of 12 return addresses and a stack pointer. -/
structure Stack where
  mem : Nat → Nat
  ptr : Nat
deriving Inhabited

/-- `Stack::push`: writes `mem[ptr]` and increments `ptr`. At `ptr = 12`
the write is out of the 12-entry array and the program aborts in every
build (debug: the assert, release: the index), modelled as one error. -/
def Stack.push (st : Stack) (val : Nat) : Except VMError Stack :=
  if st.ptr < 12 then .ok { mem := updf st.mem st.ptr val, ptr := st.ptr + 1 }
  else .error .stackOverflow

/-- `Stack::pop`: reads `mem[ptr - 1]` and decrements `ptr`. At `ptr = 0`
the program aborts in every build (debug: the assert, release: usize
underflow then an out-of-range index). -/
def Stack.pop (st : Stack) : Except VMError (Nat × Stack) :=
  if st.ptr ≠ 0 then .ok (st.mem (st.ptr - 1), { st with ptr := st.ptr - 1 })
  else .error .stackUnderflow

/-- `rng.rs` `Rng::get_byte`: the one-byte xorshift step. The returned
byte and the new seed are the same value. -/
def getByte (seed : Nat) : Nat :=
  let s1 := seed ^^^ ((seed <<< 7) % 256)
  let s2 := s1 ^^^ (s1 >>> 5)
  s2 ^^^ ((s2 <<< 3) % 256)

/-- The whole mutable state of `VM` (`chip8.rs`), with the display's
frame buffer inlined and the keypad/audio collaborators abstracted:
`keyPressed` is `Keypad::is_key_pressed`, `keypadInput` is the value
`Keypad::get_input` would return this cycle, `beeperPlaying` is the
audio sink's play/pause state. -/
structure VM where
  mem : Nat → Nat
  regs : Nat → Nat
  pc : Nat
  index : Nat
  soundTimer : Nat
  delayTimer : Nat
  stack : Stack
  opcode : Nat
  rngSeed : Nat
  beeperPlaying : Bool
  shouldDraw : Bool
  legacyMode : Bool
  fb : Nat → Nat → Bool
  keyPressed : Nat → Bool
  keypadInput : Option Nat

/-- Register index X of the current opcode: `(opcode & 0x0F00) >> 8`. -/
def regXof (op : Nat) : Nat := (op &&& 0x0F00) >>> 8

/-- Register index Y of the current opcode: `(opcode & 0x00F0) >> 4`. -/
def regYof (op : Nat) : Nat := (op &&& 0x00F0) >>> 4

/-- `VM::decrement_timers`: each timer is decremented when nonzero; the
beeper is paused when the sound timer reaches zero. -/
def decrementTimers (vm : VM) : VM :=
  let vm1 := if vm.delayTimer > 0 then { vm with delayTimer := vm.delayTimer - 1 } else vm
  if vm1.soundTimer > 0 then
    { vm1 with
      soundTimer := vm1.soundTimer - 1,
      beeperPlaying := if vm1.soundTimer - 1 = 0 then false else vm1.beeperPlaying }
  else vm1

/-- `VM::nib_0`: 00E0 clears the frame buffer, 00EE pops the return
address into the program counter, anything else aborts. -/
def nib_0 (vm : VM) : Except VMError VM :=
  if vm.opcode = 0x00E0 then .ok { vm with fb := fun _ _ => false }
  else if vm.opcode = 0x00EE then
    (vm.stack.pop).map fun p => { vm with pc := p.1, stack := p.2 }
  else .error (.unsupportedOpcode vm.opcode)

/-- `VM::nib_1`: jump to NNN; the address-range `debug_assert!` exists
only in debug builds. -/
def nib_1 (dbg : Bool) (vm : VM) : Except VMError VM :=
  let addr := vm.opcode &&& 0x0FFF
  if dbg ∧ ¬(512 ≤ addr ∧ addr < 4096) then .error (.invalidAddress addr)
  else .ok { vm with pc := addr }

/-- `VM::nib_2`: push the (post-fetch) program counter, then jump. -/
def nib_2 (dbg : Bool) (vm : VM) : Except VMError VM :=
  (vm.stack.push vm.pc).bind fun st => nib_1 dbg { vm with stack := st }

/-- `VM::nib_3`: skip if register X equals NN. -/
def nib_3 (vm : VM) : VM :=
  let regNum := regXof vm.opcode
  let val := vm.opcode &&& 0x00FF
  if vm.regs regNum = val then { vm with pc := vm.pc + 2 } else vm

/-- `VM::nib_4`: skip if register X differs from NN. -/
def nib_4 (vm : VM) : VM :=
  let regNum := regXof vm.opcode
  let val := vm.opcode &&& 0x00FF
  if vm.regs regNum ≠ val then { vm with pc := vm.pc + 2 } else vm

/-- `VM::nib_5`: skip if register X equals register Y. The handler
ignores the low nibble of the opcode entirely. -/
def nib_5 (vm : VM) : VM :=
  let regX := regXof vm.opcode
  let regY := regYof vm.opcode
  if vm.regs regX = vm.regs regY then { vm with pc := vm.pc + 2 } else vm

/-- `VM::nib_6`: register X := NN. -/
def nib_6 (vm : VM) : VM :=
  let regNum := regXof vm.opcode
  let val := vm.opcode &&& 0x00FF
  { vm with regs := updf vm.regs regNum val }

/-- `VM::nib_7`: register X := X + NN with u8 wrapping; no flag. -/
def nib_7 (vm : VM) : VM :=
  let regNum := regXof vm.opcode
  let val := vm.opcode &&& 0x00FF
  { vm with regs := updf vm.regs regNum ((vm.regs regNum + val) % 256) }

/-- u8 `wrapping_sub`. -/
def sub8 (a b : Nat) : Nat := (a + 256 - b % 256) % 256

/-- The `OPS` closure table inside `VM::nib_8`; entry 8 is the 8XYE
handler (`OPS.last()`). Note that the carry/borrow flags of entries 4, 5
and 7 re-read `regs[reg_y]` after `regs[reg_x]` has been written, exactly
as the Rust closures do. -/
def op8 (opIndex regX regY : Nat) (vm : VM) : VM :=
  match opIndex with
  | 0 => { vm with regs := updf vm.regs regX (vm.regs regY) }
  | 1 =>
    let r1 := updf vm.regs regX (vm.regs regX ||| vm.regs regY)
    { vm with regs := updf r1 15 0 }
  | 2 =>
    let r1 := updf vm.regs regX (vm.regs regX &&& vm.regs regY)
    { vm with regs := updf r1 15 0 }
  | 3 =>
    let r1 := updf vm.regs regX (vm.regs regX ^^^ vm.regs regY)
    { vm with regs := updf r1 15 0 }
  | 4 =>
    let x := vm.regs regX
    let r1 := updf vm.regs regX ((x + vm.regs regY) % 256)
    { vm with regs := updf r1 15 (if x + r1 regY > 255 then 1 else 0) }
  | 5 =>
    let x := vm.regs regX
    let r1 := updf vm.regs regX (sub8 x (vm.regs regY))
    { vm with regs := updf r1 15 (if x ≥ r1 regY then 1 else 0) }
  | 6 =>
    let r0 := if vm.legacyMode then updf vm.regs regX (vm.regs regY) else vm.regs
    let leastSigBit := r0 regX &&& 1
    let r1 := updf r0 regX (r0 regX >>> 1)
    { vm with regs := updf r1 15 leastSigBit }
  | 7 =>
    let x := vm.regs regX
    let r1 := updf vm.regs regX (sub8 (vm.regs regY) x)
    { vm with regs := updf r1 15 (if r1 regY ≥ x then 1 else 0) }
  | _ =>
    let r0 := if vm.legacyMode then updf vm.regs regX (vm.regs regY) else vm.regs
    let mostSigBit := r0 regX >>> 7
    let r1 := updf r0 regX ((r0 regX <<< 1) % 256)
    { vm with regs := updf r1 15 mostSigBit }

/-- `VM::nib_8`: dispatch on the low nibble; indices below 8 index the
`OPS` table directly, anything else runs the 8XYE entry, guarded in
debug builds by `debug_assert!(op_index == 0xE)`. -/
def nib_8 (dbg : Bool) (vm : VM) : Except VMError VM :=
  let regX := regXof vm.opcode
  let regY := regYof vm.opcode
  let opIndex := vm.opcode &&& 0x000F
  if opIndex < 8 then .ok (op8 opIndex regX regY vm)
  else if dbg ∧ opIndex ≠ 0xE then .error (.invalidOpIndex vm.opcode)
  else .ok (op8 8 regX regY vm)

/-- `VM::nib_9`: skip if register X differs from register Y. -/
def nib_9 (vm : VM) : VM :=
  let regX := regXof vm.opcode
  let regY := regYof vm.opcode
  if vm.regs regX ≠ vm.regs regY then { vm with pc := vm.pc + 2 } else vm

/-- `VM::nib_a`: index register := NNN. -/
def nib_a (vm : VM) : VM :=
  { vm with index := vm.opcode &&& 0x0FFF }

/-- `VM::nib_b`: program counter := NNN + register 0; the range
`debug_assert!` exists only in debug builds. -/
def nib_b (dbg : Bool) (vm : VM) : Except VMError VM :=
  let target := (vm.opcode &&& 0x0FFF) + vm.regs 0
  if dbg ∧ ¬(512 ≤ target ∧ target < 4096) then .error (.invalidAddress target)
  else .ok { vm with pc := target }

/-- `VM::nib_c`: register X := next pseudo-random byte AND NN. -/
def nib_c (vm : VM) : VM :=
  let regNum := regXof vm.opcode
  let val := vm.opcode &&& 0x00FF
  let randVal := getByte vm.rngSeed
  { vm with regs := updf vm.regs regNum (randVal &&& val), rngSeed := randVal }

/-- The inner column loop of `VM::nib_d`: `cnt` remaining columns
starting at `col`; each step draws the top bit of `spriteRow` and shifts
it left one (u8). The flag becomes 1 when an on pixel is turned off. -/
def drawColsN (row : Nat) : Nat → Nat → Nat → (Nat → Nat → Bool) → Nat →
    ((Nat → Nat → Bool) × Nat)
  | 0, _, _, fb, flag => (fb, flag)
  | cnt + 1, col, spriteRow, fb, flag =>
    let pixelState := spriteRow >>> 7
    let spriteRow' := (spriteRow <<< 1) % 256
    if pixelState = 1 then
      if fb row col = true then
        drawColsN row cnt (col + 1) spriteRow' (updfb fb row col false) 1
      else
        drawColsN row cnt (col + 1) spriteRow' (updfb fb row col true) flag
    else drawColsN row cnt (col + 1) spriteRow' fb flag

/-- The row loop of `VM::nib_d`: `m` remaining rows starting at screen
row `row`, reading sprite byte `mem[spriteAddr + off]` for each (an
out-of-range read aborts in every build). -/
def drawRowsN (mem : Nat → Nat) (spriteAddr x0 numCols : Nat) :
    Nat → Nat → Nat → (Nat → Nat → Bool) → Nat →
    Except VMError ((Nat → Nat → Bool) × Nat)
  | 0, _, _, fb, flag => .ok (fb, flag)
  | m + 1, row, off, fb, flag =>
    if spriteAddr + off < 4096 then
      let spriteRow := mem (spriteAddr + off)
      let p := drawColsN row numCols x0 spriteRow fb flag
      drawRowsN mem spriteAddr x0 numCols m (row + 1) (off + 1) p.1 p.2
    else .error .memOutOfBounds

/-- Test used to characterise the draw flag: does some set bit of sprite
byte `s`, walked most-significant-first over `cnt` columns from `col`,
land on an on pixel of row `row`? Mirrors the shift walk of the draw
loop. -/
def hitRowN (fb : Nat → Nat → Bool) (row : Nat) : Nat → Nat → Nat → Bool
  | 0, _, _ => false
  | cnt + 1, col, s =>
    ((s >>> 7 == 1) && fb row col) || hitRowN fb row cnt (col + 1) ((s <<< 1) % 256)

/-- Row-wise extension of `hitRowN` over the sprite's rows, all tested
against one fixed frame buffer. -/
def hitRowsN (mem : Nat → Nat) (spriteAddr x0 numCols : Nat) (fb : Nat → Nat → Bool) :
    Nat → Nat → Nat → Bool
  | 0, _, _ => false
  | m + 1, row, off =>
    hitRowN fb row numCols x0 (mem (spriteAddr + off))
      || hitRowsN mem spriteAddr x0 numCols fb m (row + 1) (off + 1)

/-- `VM::nib_d`: draw an N-row sprite from `[index]` at
`(regs X mod 64, regs Y mod 32)`, clipped at the right and bottom edges;
`regs[0xF]` starts at 0 and ends 1 exactly when a pixel was turned off. -/
def nib_d (vm : VM) : Except VMError VM :=
  let regX := regXof vm.opcode
  let regY := regYof vm.opcode
  let numRows := vm.opcode &&& 0x000F
  let xCoord := vm.regs regX % 64
  let yCoord := vm.regs regY % 32
  let spriteAddr := vm.index
  let numCols := min 64 (xCoord + 8) - xCoord
  let rowCount := min 32 (yCoord + numRows) - yCoord
  match drawRowsN vm.mem spriteAddr xCoord numCols rowCount yCoord 0 vm.fb 0 with
  | .ok p => .ok { vm with fb := p.1, regs := updf vm.regs 15 p.2, shouldDraw := true }
  | .error e => .error e

/-- `VM::nib_e`: the handler evaluates
`Keypad::is_key_pressed(regs[X])` before matching the low byte, and
`is_key_pressed` aborts in every build when `regs[X]` is not below 16
(`keypad.rs`: the debug assert, then the `key_states[16]` array index in
release) — an abort that does not mention the opcode. Only with the key
value in range does the low-byte match run: EX9E / EXA1 skip on the key
state, anything else aborts reporting the raw opcode. -/
def nib_e (vm : VM) : Except VMError VM :=
  let regNum := regXof vm.opcode
  let opType := vm.opcode &&& 0x00FF
  let regVal := vm.regs regNum
  if regVal < 16 then
    let isPressed := vm.keyPressed regVal
    if opType = 0x9E then .ok { vm with pc := vm.pc + (if isPressed then 1 else 0) * 2 }
    else if opType = 0xA1 then .ok { vm with pc := vm.pc + (if isPressed then 0 else 1) * 2 }
    else .error (.unsupportedOpcode vm.opcode)
  else .error .keypadOutOfRange

/-- The slice of registers 0..X written into memory by FX55
(`copy_from_slice`). -/
def storeRegs (mem regs : Nat → Nat) (index x : Nat) : Nat → Nat :=
  fun a => if index ≤ a ∧ a < index + x + 1 then regs (a - index) else mem a

/-- The load of registers 0..X from memory by FX65 (`copy_from_slice`). -/
def loadRegs (regs mem : Nat → Nat) (index x : Nat) : Nat → Nat :=
  fun i => if i < x + 1 then mem (index + i) else regs i

/-- `VM::nib_f`: the FX__ family. The FX29 sprite-range `debug_assert!`
exists only in debug builds; the FX33/FX55/FX65 memory bounds abort in
every build (the slice index aborts even when the assert is compiled
out, under the same condition). The FX29 multiply wraps at u8; the FX1E
add aborts on u16 overflow in debug builds and wraps mod 65536 in
release builds. -/
def nib_f (dbg : Bool) (vm : VM) : Except VMError VM :=
  let regNum := regXof vm.opcode
  let opType := vm.opcode &&& 0x00FF
  if opType = 0x07 then .ok { vm with regs := updf vm.regs regNum vm.delayTimer }
  else if opType = 0x0A then
    match vm.keypadInput with
    | some key => .ok { vm with regs := updf vm.regs regNum key }
    | none => .ok { vm with pc := vm.pc - 2 }
  else if opType = 0x15 then .ok { vm with delayTimer := vm.regs regNum }
  else if opType = 0x18 then
    .ok { vm with
          soundTimer := vm.regs regNum,
          beeperPlaying := if vm.regs regNum > 0 then true else vm.beeperPlaying }
  else if opType = 0x1E then
    if dbg ∧ 65536 ≤ vm.index + vm.regs regNum then .error .addOverflow
    else .ok { vm with index := (vm.index + vm.regs regNum) % 65536 }
  else if opType = 0x29 then
    if dbg ∧ 15 < vm.regs regNum then .error (.invalidSprite vm.opcode)
    else .ok { vm with index := (vm.regs regNum * 5) % 256 }
  else if opType = 0x33 then
    if vm.index + 2 < 4096 then
      let v := vm.regs regNum
      .ok { vm with
            mem := updf (updf (updf vm.mem vm.index (v / 100))
                    (vm.index + 1) ((v / 10) % 10)) (vm.index + 2) (v % 10) }
    else .error .memOutOfBounds
  else if opType = 0x55 then
    if vm.index + regNum < 4096 then
      .ok { vm with
            mem := storeRegs vm.mem vm.regs vm.index regNum,
            index := if vm.legacyMode then vm.index + regNum + 1 else vm.index }
    else .error .memOutOfBounds
  else if opType = 0x65 then
    if vm.index + regNum < 4096 then
      .ok { vm with
            regs := loadRegs vm.regs vm.mem vm.index regNum,
            index := if vm.legacyMode then vm.index + regNum + 1 else vm.index }
    else .error .memOutOfBounds
  else .error (.unsupportedOpcode vm.opcode)

/-- `VM::exec_instr`: fetch the two opcode bytes big-endian at the
program counter (an out-of-range fetch aborts), advance the counter by
2, and dispatch on the top nibble of the first byte through the 16-way
table. -/
def exec_instr (dbg : Bool) (vm : VM) : Except VMError VM :=
  if vm.pc + 1 < 4096 then
    let opcode := (vm.mem vm.pc <<< 8) ||| vm.mem (vm.pc + 1)
    let opType := (vm.mem vm.pc &&& 0xF0) >>> 4
    let vm1 : VM := { vm with opcode := opcode, pc := vm.pc + 2 }
    if opType = 0 then nib_0 vm1
    else if opType = 1 then nib_1 dbg vm1
    else if opType = 2 then nib_2 dbg vm1
    else if opType = 3 then .ok (nib_3 vm1)
    else if opType = 4 then .ok (nib_4 vm1)
    else if opType = 5 then .ok (nib_5 vm1)
    else if opType = 6 then .ok (nib_6 vm1)
    else if opType = 7 then .ok (nib_7 vm1)
    else if opType = 8 then nib_8 dbg vm1
    else if opType = 9 then .ok (nib_9 vm1)
    else if opType = 10 then .ok (nib_a vm1)
    else if opType = 11 then nib_b dbg vm1
    else if opType = 12 then .ok (nib_c vm1)
    else if opType = 13 then nib_d vm1
    else if opType = 14 then nib_e vm1
    else nib_f dbg vm1
  else .error .memOutOfBounds

/-! ## Shared helper lemmas -/

/-- A fixed state used to instantiate witnesses. -/
def baseVM : VM where
  mem := fun _ => 0
  regs := fun _ => 0
  pc := 512
  index := 0
  soundTimer := 0
  delayTimer := 0
  stack := { mem := fun _ => 0, ptr := 0 }
  opcode := 0
  rngSeed := 1
  beeperPlaying := false
  shouldDraw := false
  legacyMode := false
  fb := fun _ _ => false
  keyPressed := fun _ => false
  keypadInput := none

lemma decrementTimers_delay (vm : VM) :
    (decrementTimers vm).delayTimer = vm.delayTimer - 1 := by
  simp only [decrementTimers]
  split <;> split <;> simp_all

lemma decrementTimers_sound (vm : VM) :
    (decrementTimers vm).soundTimer = vm.soundTimer - 1 := by
  simp only [decrementTimers]
  split <;> split <;> simp_all

lemma decrementTimers_iter_delay (n : Nat) (vm : VM) :
    (decrementTimers^[n] vm).delayTimer = vm.delayTimer - n := by
  induction n with
  | zero => simp
  | succ k ih => rw [Function.iterate_succ_apply', decrementTimers_delay, ih]; omega

lemma loadRegs_storeRegs (regs mem : Nat → Nat) (index x : Nat) :
    loadRegs regs (storeRegs mem regs index x) index x = regs := by
  funext i
  simp only [loadRegs, storeRegs]
  by_cases hi : i < x + 1
  · rw [if_pos hi, if_pos (by omega)]
    congr 1
    omega
  · rw [if_neg hi]

/-! ## C9: zero is an absorbing state of the xorshift byte source -/

/-- C9: if the byte source's state is zero, `get_byte` returns 0 and
leaves the state zero; hence iterating it stays at zero forever, and
with generator state 0 any CXNN execution writes 0 into register X and
leaves the state 0. -/
theorem c9_rng_zero_absorbing :
    getByte 0 = 0
    ∧ (∀ n : Nat, getByte^[n] 0 = 0)
    ∧ (∀ vm : VM, vm.rngSeed = 0 →
        (nib_c vm).regs (regXof vm.opcode) = 0 ∧ (nib_c vm).rngSeed = 0) := by
  have h0 : getByte 0 = 0 := rfl
  refine ⟨h0, ?_, ?_⟩
  · intro n
    induction n with
    | zero => rfl
    | succ k ih => rw [Function.iterate_succ_apply', ih, h0]
  · intro vm h
    constructor
    · simp [nib_c, h, h0, updf]
    · simp [nib_c, h, h0]

theorem c9_rng_zero_absorbing_witness :
    (nib_c { baseVM with opcode := 0xC0FF, rngSeed := 0 }).regs 0 = 0
    ∧ (nib_c { baseVM with opcode := 0xC0FF, rngSeed := 0 }).rngSeed = 0 :=
  c9_rng_zero_absorbing.2.2 { baseVM with opcode := 0xC0FF, rngSeed := 0 } rfl

/-! ## C7: timer decrement semantics -/

/-- C7: each scheduler tick decrements each timer by exactly 1 when it
is nonzero and leaves it at 0 when it is zero; after FX15 loads 5 into
the delay timer, five ticks leave it 0 and a sixth tick leaves it 0. -/
theorem c7_timer_decrement :
    (∀ vm : VM,
      (0 < vm.delayTimer → (decrementTimers vm).delayTimer = vm.delayTimer - 1)
      ∧ (vm.delayTimer = 0 → (decrementTimers vm).delayTimer = 0)
      ∧ (0 < vm.soundTimer → (decrementTimers vm).soundTimer = vm.soundTimer - 1)
      ∧ (vm.soundTimer = 0 → (decrementTimers vm).soundTimer = 0))
    ∧ (∀ vm : VM, vm.opcode = 0xF015 → vm.regs 0 = 5 →
        ∃ vm1, nib_f false vm = .ok vm1
          ∧ (decrementTimers^[5] vm1).delayTimer = 0
          ∧ (decrementTimers^[6] vm1).delayTimer = 0) := by
  constructor
  · intro vm
    refine ⟨?_, ?_, ?_, ?_⟩ <;> intro h <;>
      simp [decrementTimers_delay, decrementTimers_sound, h]
  · intro vm hop hreg
    have hOp : vm.opcode &&& 0x00FF = 0x15 := by rw [hop]; decide
    have hX : regXof vm.opcode = 0 := by rw [hop]; decide
    refine ⟨{ vm with delayTimer := 5 }, ?_, ?_, ?_⟩
    · simp [nib_f, hOp, hX, hreg]
    · rw [decrementTimers_iter_delay]
      rfl
    · rw [decrementTimers_iter_delay]
      rfl

theorem c7_timer_decrement_witness :
    ∃ vm1, nib_f false { baseVM with opcode := 0xF015, regs := fun _ => 5 } = .ok vm1
      ∧ (decrementTimers^[5] vm1).delayTimer = 0
      ∧ (decrementTimers^[6] vm1).delayTimer = 0 :=
  c7_timer_decrement.2 { baseVM with opcode := 0xF015, regs := fun _ => 5 } rfl rfl

/-! ## C5: 7XNN adds without carry -/

/-- C5 (amended): 7XNN stores `(a + b) mod 256` into register X; for
X ≠ 0xF the flag register is untouched (for X = 0xF the sum itself lands
in the flag register, so "flag unaffected" fails there). -/
theorem c5_add_no_flag : ∀ (vm : VM) (a b x : Nat),
    regXof vm.opcode = x → x ≠ 15 → vm.opcode &&& 0x00FF = b → vm.regs x = a →
    (nib_7 vm).regs x = (a + b) % 256 ∧ (nib_7 vm).regs 15 = vm.regs 15 := by
  intro vm a b x hx hx15 hb ha
  have h15 : ¬((15 : Nat) = x) := fun h => hx15 h.symm
  unfold nib_7
  constructor
  · simp [hx, hb, ha, updf]
  · simp [hx, updf, h15]

theorem c5_add_no_flag_witness :
    (nib_7 { baseVM with opcode := 0x7103, regs := fun _ => 7 }).regs 1 = (7 + 3) % 256
    ∧ (nib_7 { baseVM with opcode := 0x7103, regs := fun _ => 7 }).regs 15
        = ({ baseVM with opcode := 0x7103, regs := fun _ => 7 } : VM).regs 15 :=
  c5_add_no_flag { baseVM with opcode := 0x7103, regs := fun _ => 7 } 7 3 1
    (by decide) (by decide) (by decide) rfl

/-- C5 counterexample: with X = 0xF (opcode 7F01, register 0xF holding
0), the add writes the sum into the flag register, so the claim's "flag
register 0xF unaffected" is false as stated. -/
theorem c5_flag_counterexample :
    (nib_7 { baseVM with opcode := 0x7F01 }).regs 15 = 1
    ∧ ({ baseVM with opcode := 0x7F01 } : VM).regs 15 = 0 := by
  constructor <;> rfl

/-! ## C1: 8XY4 carry flag and the X = Y aliasing slip -/

/-- C1: the 8XY4 handler computes the carry from `regs[reg_y]` re-read
after `regs[reg_x]` was overwritten. At the failing input X = Y = 0 with
register 0 = 0x80 (opcode 0x8004), the sum 0x80 + 0x80 = 256 exceeds
255, yet the code leaves the carry flag 0 (it reads the already-wrapped
register). The claim's flag rule is the evident intent (the handler
saves the pre-add value `x` precisely to compute the carry) and fails
only through this aliasing slip. -/
theorem c1_8xy4_alias_flag :
    ((nib_8 false { baseVM with opcode := 0x8004, regs := fun _ => 0x80 }).map
        fun v => v.regs 15) = .ok 0
    ∧ 255 < 0x80 + 0x80 := by
  constructor
  · rfl
  · decide

/-! ## C6: FX29 font-glyph range check is debug-only -/

/-- C6 (amended): FX29 with register X ≤ 0xF sets the index register to
5·v in every build; with register X > 0xF it aborts only in debug
builds, while release builds continue silently with
index = (5·v) mod 256 (u8 multiply, then widen). -/
theorem c6_fx29_range : ∀ (vm : VM) (v : Nat),
    vm.opcode &&& 0x00FF = 0x29 → vm.regs (regXof vm.opcode) = v →
    (v ≤ 15 → ∀ dbg, nib_f dbg vm = .ok { vm with index := v * 5 })
    ∧ (15 < v → nib_f true vm = .error (.invalidSprite vm.opcode))
    ∧ (15 < v → nib_f false vm = .ok { vm with index := (v * 5) % 256 }) := by
  intro vm v h29 hv
  refine ⟨?_, ?_, ?_⟩
  · intro hle dbg
    have hm : (v * 5) % 256 = v * 5 := Nat.mod_eq_of_lt (by omega)
    have hng : ¬(dbg = true ∧ 15 < v) := by
      rintro ⟨-, h⟩
      omega
    simp [nib_f, h29, hv, hm, hng]
  · intro hgt
    simp [nib_f, h29, hv, hgt]
  · intro hgt
    simp [nib_f, h29, hv]

theorem c6_fx29_range_witness :
    nib_f true { baseVM with opcode := 0xF129, regs := fun _ => 7 }
      = .ok { { baseVM with opcode := 0xF129, regs := fun _ => 7 } with index := 7 * 5 } :=
  (c6_fx29_range { baseVM with opcode := 0xF129, regs := fun _ => 7 } 7
    (by decide) rfl).1 (by decide) true

/-- C6 counterexample: in a release build (no debug assertions), FX29
with register X = 0x10 > 0xF does not stop execution: it returns
normally with index register 0x10·5 = 80. -/
theorem c6_fx29_counterexample :
    ((nib_f false { baseVM with opcode := 0xF029, regs := fun _ => 0x10 }).map
        fun v => v.index) = .ok 80 := by
  rfl


/-! ## C2: uncovered opcode patterns -/

/-- C2 (amended): an opcode whose pattern is not covered inside the
dispatched families 0 or F stops execution with an error carrying the
raw 16-bit opcode (and nothing else: no address). Family E evaluates the
key lookup `is_key_pressed(regs[X])` before matching the low byte, so an
uncovered EX pattern reports the raw opcode only when `regs[X]` is below
16; otherwise the program aborts inside the keypad, in every build,
without reporting the opcode at all. Family 5 ignores its low nibble
entirely, so e.g. 5XY1 executes as 5XY0 and execution continues
silently; family 8's uncovered patterns (low nibble 8..D or F) abort
only in debug builds, while a release build silently runs them as the
8XYE entry of the `OPS` table. -/
theorem c2_unknown_opcode : ∀ (vm : VM) (dbg : Bool),
    (vm.opcode ≠ 0x00E0 → vm.opcode ≠ 0x00EE →
      nib_0 vm = .error (.unsupportedOpcode vm.opcode))
    ∧ (vm.opcode &&& 0x00FF ≠ 0x07 → vm.opcode &&& 0x00FF ≠ 0x0A →
      vm.opcode &&& 0x00FF ≠ 0x15 → vm.opcode &&& 0x00FF ≠ 0x18 →
      vm.opcode &&& 0x00FF ≠ 0x1E → vm.opcode &&& 0x00FF ≠ 0x29 →
      vm.opcode &&& 0x00FF ≠ 0x33 → vm.opcode &&& 0x00FF ≠ 0x55 →
      vm.opcode &&& 0x00FF ≠ 0x65 →
      nib_f dbg vm = .error (.unsupportedOpcode vm.opcode))
    ∧ (vm.regs (regXof vm.opcode) < 16 →
      vm.opcode &&& 0x00FF ≠ 0x9E → vm.opcode &&& 0x00FF ≠ 0xA1 →
      nib_e vm = .error (.unsupportedOpcode vm.opcode))
    ∧ (¬vm.regs (regXof vm.opcode) < 16 → nib_e vm = .error .keypadOutOfRange)
    ∧ (8 ≤ vm.opcode &&& 0x000F → vm.opcode &&& 0x000F ≠ 0xE →
      nib_8 true vm = .error (.invalidOpIndex vm.opcode))
    ∧ (8 ≤ vm.opcode &&& 0x000F →
      nib_8 false vm = .ok (op8 8 (regXof vm.opcode) (regYof vm.opcode) vm))
    ∧ nib_5 vm = (if vm.regs (regXof vm.opcode) = vm.regs (regYof vm.opcode)
        then { vm with pc := vm.pc + 2 } else vm) := by
  intro vm dbg
  refine ⟨?_, ?_, ?_, ?_, ?_, ?_, rfl⟩
  · intro h1 h2
    simp [nib_0, h1, h2]
  · intro h1 h2 h3 h4 h5 h6 h7 h8 h9
    simp [nib_f, h1, h2, h3, h4, h5, h6, h7, h8, h9]
  · intro hk h1 h2
    simp [nib_e, hk, h1, h2]
  · intro hk
    simp [nib_e, hk]
  · intro h8 hne
    have hlt : ¬(vm.opcode &&& 0x000F < 8) := by omega
    simp [nib_8, hlt, hne]
  · intro h8
    have hlt : ¬(vm.opcode &&& 0x000F < 8) := by omega
    simp [nib_8, hlt]

theorem c2_unknown_opcode_witness :
    nib_0 { baseVM with opcode := 0x00E1 } = .error (.unsupportedOpcode 0x00E1) :=
  (c2_unknown_opcode { baseVM with opcode := 0x00E1 } false).1 (by decide) (by decide)

/-- C2 counterexample: executing the uncovered pattern 5011 (low nibble
1) from memory is not fatal: the engine runs it as 5XY0 and, with
register 0 = register 1, skips to program counter 516 and continues. -/
theorem c2_unknown_opcode_counterexample :
    ((exec_instr false
        { baseVM with
          mem := fun a => if a = 512 then 0x50 else if a = 513 then 0x11 else 0 }).map
      fun v => v.pc) = .ok 516 := by
  rfl

/-! ## C8: the call stack -/

/-- C8: the call stack is a bounded LIFO with capacity 12 (a push at a
full stack aborts); `pop` after `push v` returns `v` with the pointer
restored; 2NNN executed from memory pushes the post-fetch program
counter (fetch pc + 2) and jumps to NNN; 00EE with a one-entry stack
holding 600 sets the program counter to 600 leaving the stack empty. -/
theorem c8_stack_lifo :
    (∀ (st : Stack) (v : Nat), st.ptr < 12 →
      ∃ st1, st.push v = .ok st1 ∧ st1.pop = .ok (v, { st1 with ptr := st.ptr }))
    ∧ (∀ (st : Stack) (v : Nat), ¬st.ptr < 12 → st.push v = .error .stackOverflow)
    ∧ (∀ vm : VM, vm.pc + 1 < 4096 → (vm.mem vm.pc &&& 0xF0) >>> 4 = 2 →
        vm.stack.ptr < 12 →
        ∃ vm1, exec_instr false vm = .ok vm1
          ∧ vm1.stack.ptr = vm.stack.ptr + 1
          ∧ vm1.stack.mem vm.stack.ptr = vm.pc + 2
          ∧ vm1.pc = ((vm.mem vm.pc <<< 8) ||| vm.mem (vm.pc + 1)) &&& 0x0FFF)
    ∧ (∀ vm : VM, vm.opcode = 0x00EE → vm.stack.ptr = 1 → vm.stack.mem 0 = 600 →
        ∃ vm1, nib_0 vm = .ok vm1 ∧ vm1.pc = 600 ∧ vm1.stack.ptr = 0) := by
  refine ⟨?_, ?_, ?_, ?_⟩
  · intro st v h
    refine ⟨{ mem := updf st.mem st.ptr v, ptr := st.ptr + 1 }, ?_, ?_⟩
    · simp [Stack.push, h]
    · simp [Stack.pop, updf]
  · intro st v h
    simp [Stack.push, h]
  · intro vm hpc htop hcap
    refine ⟨{ vm with
        opcode := (vm.mem vm.pc <<< 8) ||| vm.mem (vm.pc + 1),
        pc := ((vm.mem vm.pc <<< 8) ||| vm.mem (vm.pc + 1)) &&& 0x0FFF,
        stack := { mem := updf vm.stack.mem vm.stack.ptr (vm.pc + 2),
                   ptr := vm.stack.ptr + 1 } }, ?_, rfl, ?_, rfl⟩
    · simp [exec_instr, hpc, htop, nib_2, Stack.push, hcap, nib_1, Except.bind]
    · simp [updf]
  · intro vm hop hptr hmem
    refine ⟨{ vm with pc := 600, stack := { vm.stack with ptr := 0 } }, ?_, rfl, rfl⟩
    have h1 : vm.opcode ≠ 0x00E0 := by rw [hop]; decide
    simp [nib_0, h1, hop, Stack.pop, hptr, hmem, Except.map]

theorem c8_stack_lifo_witness :
    ∃ st1, Stack.push { mem := fun _ => 0, ptr := 0 } 600 = .ok st1
      ∧ st1.pop = .ok (600, { st1 with ptr := 0 }) :=
  c8_stack_lifo.1 { mem := fun _ => 0, ptr := 0 } 600 (by decide)

/-! ## C3: FX55 / FX65 round trip -/

/-- C3: storing registers 0..X with FX55 and then loading them back with
FX65 with the same X and the same (pre-FX55) index register restores
every register exactly, in both legacy and non-legacy mode; after each
of the two instructions the index register is incremented by X + 1 in
legacy mode only. -/
theorem c3_store_load_roundtrip : ∀ (vm : VM) (dbg : Bool) (x : Nat),
    regXof vm.opcode = x → vm.opcode &&& 0x00FF = 0x55 → vm.index + x < 4096 →
    ∃ vm1, nib_f dbg vm = .ok vm1
      ∧ vm1.regs = vm.regs
      ∧ vm1.index = (if vm.legacyMode then vm.index + x + 1 else vm.index)
      ∧ ∀ op2 : Nat, regXof op2 = x → op2 &&& 0x00FF = 0x65 →
          ∃ vm2, nib_f dbg { vm1 with opcode := op2, index := vm.index } = .ok vm2
            ∧ vm2.regs = vm.regs
            ∧ vm2.index = (if vm.legacyMode then vm.index + x + 1 else vm.index) := by
  intro vm dbg x hx h55 hb
  refine ⟨{ vm with
      mem := storeRegs vm.mem vm.regs vm.index x,
      index := if vm.legacyMode then vm.index + x + 1 else vm.index }, ?_, rfl, rfl, ?_⟩
  · simp [nib_f, h55, hx, hb]
  · intro op2 hx2 h65
    refine ⟨{ vm with
        opcode := op2,
        mem := storeRegs vm.mem vm.regs vm.index x,
        regs := loadRegs vm.regs (storeRegs vm.mem vm.regs vm.index x) vm.index x,
        index := if vm.legacyMode then vm.index + x + 1 else vm.index }, ?_,
        loadRegs_storeRegs vm.regs vm.mem vm.index x, rfl⟩
    simp [nib_f, h65, hx2, hb]

def c3vm : VM := { baseVM with opcode := 0xF355, index := 1000, regs := fun i => i }

theorem c3_store_load_roundtrip_witness :
    ∃ vm1, nib_f false c3vm = .ok vm1
      ∧ vm1.regs = c3vm.regs
      ∧ vm1.index = (if c3vm.legacyMode then c3vm.index + 3 + 1 else c3vm.index)
      ∧ ∀ op2 : Nat, regXof op2 = 3 → op2 &&& 0x00FF = 0x65 →
          ∃ vm2, nib_f false { vm1 with opcode := op2, index := c3vm.index } = .ok vm2
            ∧ vm2.regs = c3vm.regs
            ∧ vm2.index = (if c3vm.legacyMode then c3vm.index + 3 + 1 else c3vm.index) :=
  c3_store_load_roundtrip c3vm false 3 (by decide) (by decide) (by decide)


/-! ## Bit-level helper lemmas for the sprite draw -/

lemma shiftRight7_eq_one_iff (s : Nat) (hs : s < 256) :
    s >>> 7 = 1 ↔ Nat.testBit s 7 = true := by
  rw [Nat.testBit_to_div_mod, Nat.shiftRight_eq_div_pow, decide_eq_true_iff]
  have e : (2 : Nat) ^ 7 = 128 := by norm_num
  rw [e]
  omega

lemma testBit_shl1_mod (s k : Nat) (h1 : 1 ≤ k) (h7 : k ≤ 7) :
    Nat.testBit ((s <<< 1) % 256) k = Nat.testBit s (k - 1) := by
  have e : (256 : Nat) = 2 ^ 8 := by norm_num
  have hk8 : k < 8 := by omega
  obtain ⟨j, rfl⟩ : ∃ j, k = j + 1 := ⟨k - 1, by omega⟩
  rw [e, Nat.testBit_mod_two_pow, Nat.shiftLeft_eq, pow_one, Nat.testBit_succ]
  have hdiv : s * 2 / 2 = s := by omega
  rw [hdiv, Nat.add_sub_cancel]
  simp [hk8]


/-- Pointwise characterisation of the inner draw loop: pixel `(r, c)` is
toggled exactly when it lies in the drawn span and the corresponding
sprite bit (numbered from the byte's most significant bit) is set. -/
lemma drawColsN_fst (row : Nat) : ∀ cnt : Nat, cnt ≤ 8 → ∀ col s : Nat, s < 256 →
    ∀ (fb : Nat → Nat → Bool) (flag : Nat) (r c : Nat),
    (drawColsN row cnt col s fb flag).1 r c =
      if r = row ∧ col ≤ c ∧ c < col + cnt ∧ Nat.testBit s (7 - (c - col)) = true
      then !(fb r c) else fb r c := by
  intro cnt
  induction cnt with
  | zero =>
    intro _ col s _ fb flag r c
    rw [if_neg]
    · rfl
    · rintro ⟨-, h2, h3, -⟩
      omega
  | succ n ih =>
    intro hcnt col s hs fb flag r c
    have hn : n ≤ 8 := by omega
    have hs' : (s <<< 1) % 256 < 256 := Nat.mod_lt _ (by omega)
    have hshift : ∀ c' : Nat, col + 1 ≤ c' → c' < col + 1 + n →
        Nat.testBit ((s <<< 1) % 256) (7 - (c' - (col + 1)))
          = Nat.testBit s (7 - (c' - col)) := by
      intro c' h1 h2
      rw [testBit_shl1_mod _ _ (by omega) (by omega)]
      congr 1
      omega
    simp only [drawColsN]
    by_cases hpix : s >>> 7 = 1
    · have hbit : Nat.testBit s 7 = true := (shiftRight7_eq_one_iff s hs).1 hpix
      rw [if_pos hpix]
      by_cases hfb : fb row col = true
      · rw [if_pos hfb, ih hn (col + 1) _ hs']
        by_cases hr : r = row
        · subst hr
          by_cases hc : c = col
          · subst hc
            rw [if_neg (by rintro ⟨-, h2, -, -⟩; omega)]
            rw [if_pos ⟨rfl, le_refl _, by omega, by simpa using hbit⟩]
            simp [updfb, hfb]
          · have hupd : updfb fb r col false r c = fb r c := by simp [updfb, hc]
            rw [hupd]
            by_cases hin : col + 1 ≤ c ∧ c < col + 1 + n
            · rw [hshift c hin.1 hin.2]
              by_cases hb2 : Nat.testBit s (7 - (c - col)) = true
              · rw [if_pos ⟨rfl, hin.1, by omega, hb2⟩, if_pos ⟨rfl, by omega, by omega, hb2⟩]
              · rw [if_neg (by rintro ⟨-, -, -, h⟩; exact hb2 h),
                    if_neg (by rintro ⟨-, -, -, h⟩; exact hb2 h)]
            · rw [if_neg (by rintro ⟨-, h2, h3, -⟩; exact hin ⟨h2, by omega⟩),
                  if_neg (by rintro ⟨-, h2, h3, -⟩; exact hin ⟨by omega, by omega⟩)]
        · have hupd : updfb fb row col false r c = fb r c := by simp [updfb, hr]
          rw [if_neg (fun hh => hr hh.1), if_neg (fun hh => hr hh.1)]
          exact hupd
      · have hfb' : fb row col = false := by simpa using hfb
        rw [if_neg hfb, ih hn (col + 1) _ hs']
        by_cases hr : r = row
        · subst hr
          by_cases hc : c = col
          · subst hc
            rw [if_neg (by rintro ⟨-, h2, -, -⟩; omega)]
            rw [if_pos ⟨rfl, le_refl _, by omega, by simpa using hbit⟩]
            simp [updfb, hfb']
          · have hupd : updfb fb r col true r c = fb r c := by simp [updfb, hc]
            rw [hupd]
            by_cases hin : col + 1 ≤ c ∧ c < col + 1 + n
            · rw [hshift c hin.1 hin.2]
              by_cases hb2 : Nat.testBit s (7 - (c - col)) = true
              · rw [if_pos ⟨rfl, hin.1, by omega, hb2⟩, if_pos ⟨rfl, by omega, by omega, hb2⟩]
              · rw [if_neg (by rintro ⟨-, -, -, h⟩; exact hb2 h),
                    if_neg (by rintro ⟨-, -, -, h⟩; exact hb2 h)]
            · rw [if_neg (by rintro ⟨-, h2, h3, -⟩; exact hin ⟨h2, by omega⟩),
                  if_neg (by rintro ⟨-, h2, h3, -⟩; exact hin ⟨by omega, by omega⟩)]
        · have hupd : updfb fb row col true r c = fb r c := by simp [updfb, hr]
          rw [if_neg (fun hh => hr hh.1), if_neg (fun hh => hr hh.1)]
          exact hupd
    · have hbit : Nat.testBit s 7 = false := by
        cases h : Nat.testBit s 7 with
        | false => rfl
        | true => exact absurd ((shiftRight7_eq_one_iff s hs).2 h) hpix
      rw [if_neg hpix, ih hn (col + 1) _ hs']
      by_cases hr : r = row
      · subst hr
        by_cases hc : c = col
        · subst hc
          rw [if_neg (by rintro ⟨-, h2, -, -⟩; omega)]
          rw [if_neg]
          rintro ⟨-, -, -, h⟩
          rw [show (7 : Nat) - (c - c) = 7 by omega, hbit] at h
          exact Bool.false_ne_true h
        · by_cases hin : col + 1 ≤ c ∧ c < col + 1 + n
          · rw [hshift c hin.1 hin.2]
            by_cases hb2 : Nat.testBit s (7 - (c - col)) = true
            · rw [if_pos ⟨rfl, hin.1, by omega, hb2⟩, if_pos ⟨rfl, by omega, by omega, hb2⟩]
            · rw [if_neg (by rintro ⟨-, -, -, h⟩; exact hb2 h),
                  if_neg (by rintro ⟨-, -, -, h⟩; exact hb2 h)]
          · rw [if_neg (by rintro ⟨-, h2, h3, -⟩; exact hin ⟨h2, by omega⟩),
                if_neg (by rintro ⟨-, h2, h3, -⟩; exact hin ⟨by omega, by omega⟩)]
      · rw [if_neg (fun hh => hr hh.1), if_neg (fun hh => hr hh.1)]


/-- `hitRowN` only reads the frame buffer's row `row` at columns ≥ its
starting column. -/
lemma hitRowN_congr (row : Nat) : ∀ (cnt col s : Nat) (fb fb' : Nat → Nat → Bool),
    (∀ c, col ≤ c → fb' row c = fb row c) →
    hitRowN fb' row cnt col s = hitRowN fb row cnt col s := by
  intro cnt
  induction cnt with
  | zero => intro col s fb fb' _; rfl
  | succ n ih =>
    intro col s fb fb' h
    simp only [hitRowN]
    rw [h col (le_refl _), ih (col + 1) _ fb fb' (fun c hc => h c (by omega))]

/-- The flag result of the inner draw loop: 1 when some drawn sprite bit
lands on an on pixel (as `hitRowN` tests on the buffer the loop started
from), otherwise the incoming flag. -/
lemma drawColsN_snd (row : Nat) : ∀ (cnt col s : Nat) (fb : Nat → Nat → Bool) (flag : Nat),
    (drawColsN row cnt col s fb flag).2
      = if hitRowN fb row cnt col s = true then 1 else flag := by
  intro cnt
  induction cnt with
  | zero => intro col s fb flag; simp [drawColsN, hitRowN]
  | succ n ih =>
    intro col s fb flag
    simp only [drawColsN, hitRowN]
    by_cases hpix : s >>> 7 = 1
    · have hbeq : (s >>> 7 == 1) = true := by simp [hpix]
      rw [if_pos hpix]
      by_cases hfb : fb row col = true
      · rw [if_pos hfb, ih (col + 1) _ _ 1]
        have : hitRowN fb row n (col + 1) ((s <<< 1) % 256)
            = hitRowN (updfb fb row col false) row n (col + 1) ((s <<< 1) % 256) :=
          (hitRowN_congr row n (col + 1) _ fb (updfb fb row col false)
            (fun c hc => by simp [updfb]; omega)).symm
        rw [← this]
        simp [hbeq, hfb]
      · rw [if_neg hfb, ih (col + 1) _ _ flag]
        have : hitRowN fb row n (col + 1) ((s <<< 1) % 256)
            = hitRowN (updfb fb row col true) row n (col + 1) ((s <<< 1) % 256) :=
          (hitRowN_congr row n (col + 1) _ fb (updfb fb row col true)
            (fun c hc => by simp [updfb]; omega)).symm
        rw [← this]
        have hfb' : fb row col = false := by simpa using hfb
        simp [hbeq, hfb']
    · have hbeq : (s >>> 7 == 1) = false := by simp [hpix]
      rw [if_neg hpix, ih (col + 1) _ _ flag]
      simp [hbeq]

/-- `hitRowN` holds exactly when some set sprite bit of `s` (numbered
from the most significant bit) falls on an on pixel of the row. -/
lemma hitRowN_iff (row : Nat) (fb : Nat → Nat → Bool) : ∀ cnt : Nat, cnt ≤ 8 →
    ∀ col s : Nat, s < 256 →
    (hitRowN fb row cnt col s = true
      ↔ ∃ i, i < cnt ∧ Nat.testBit s (7 - i) = true ∧ fb row (col + i) = true) := by
  intro cnt
  induction cnt with
  | zero => intro _ col s _; simp [hitRowN]
  | succ n ih =>
    intro hcnt col s hs
    have hn : n ≤ 8 := by omega
    have hs' : (s <<< 1) % 256 < 256 := Nat.mod_lt _ (by omega)
    simp only [hitRowN, Bool.or_eq_true, Bool.and_eq_true, beq_iff_eq]
    rw [ih hn (col + 1) _ hs']
    constructor
    · rintro (⟨hp, hf⟩ | ⟨i, hi, hb, hf⟩)
      · exact ⟨0, by omega, by simpa using (shiftRight7_eq_one_iff s hs).1 hp, by simpa using hf⟩
      · refine ⟨i + 1, by omega, ?_, by
          have : col + 1 + i = col + (i + 1) := by omega
          rw [← this]; exact hf⟩
        have := testBit_shl1_mod s (7 - i) (by omega) (by omega)
        rw [show (7 : Nat) - i - 1 = 7 - (i + 1) by omega] at this
        rw [← this]
        exact hb
    · rintro ⟨i, hi, hb, hf⟩
      match i with
      | 0 =>
        left
        refine ⟨(shiftRight7_eq_one_iff s hs).2 (by simpa using hb), by simpa using hf⟩
      | Nat.succ j =>
        right
        refine ⟨j, by omega, ?_, by
          have : col + 1 + j = col + (j + 1) := by omega
          rw [this]; exact hf⟩
        have := testBit_shl1_mod s (7 - j) (by omega) (by omega)
        rw [show (7 : Nat) - j - 1 = 7 - (j + 1) by omega] at this
        rw [this]
        exact hb


/-- `hitRowsN` only reads frame-buffer rows ≥ its starting row. -/
lemma hitRowsN_congr (mem : Nat → Nat) (spriteAddr x0 numCols : Nat) :
    ∀ (m row off : Nat) (fb fb' : Nat → Nat → Bool),
    (∀ r c, row ≤ r → fb' r c = fb r c) →
    hitRowsN mem spriteAddr x0 numCols fb' m row off
      = hitRowsN mem spriteAddr x0 numCols fb m row off := by
  intro m
  induction m with
  | zero => intro row off fb fb' _; rfl
  | succ n ih =>
    intro row off fb fb' h
    simp only [hitRowsN]
    rw [hitRowN_congr row numCols x0 _ fb fb' (fun c _ => h row c (le_refl _)),
        ih (row + 1) (off + 1) fb fb' (fun r c hr => h r c (by omega))]

/-- Full characterisation of the row loop of the draw: when the sprite
bytes stay inside memory, the loop succeeds; pixel `(r, c)` is toggled
exactly when it lies in the clipped rectangle and its sprite bit is set,
and the final flag is 1 exactly when `hitRowsN` finds a turned-off
pixel. -/
lemma drawRowsN_spec (mem : Nat → Nat) (spriteAddr x0 numCols : Nat)
    (hcols : numCols ≤ 8) (hmem : ∀ a, mem a < 256) :
    ∀ (m row off : Nat) (fb : Nat → Nat → Bool) (flag : Nat),
    spriteAddr + off + m ≤ 4096 →
    ∃ p, drawRowsN mem spriteAddr x0 numCols m row off fb flag = .ok p
      ∧ (∀ r c, p.1 r c =
          if row ≤ r ∧ r < row + m ∧ x0 ≤ c ∧ c < x0 + numCols
              ∧ Nat.testBit (mem (spriteAddr + off + (r - row))) (7 - (c - x0)) = true
          then !(fb r c) else fb r c)
      ∧ p.2 = (if hitRowsN mem spriteAddr x0 numCols fb m row off = true
          then 1 else flag) := by
  intro m
  induction m with
  | zero =>
    intro row off fb flag hb
    refine ⟨(fb, flag), rfl, ?_, by simp [hitRowsN]⟩
    intro r c
    rw [if_neg]
    rintro ⟨h1, h2, -⟩
    omega
  | succ n ih =>
    intro row off fb flag hb
    have haddr : spriteAddr + off < 4096 := by omega
    simp only [drawRowsN, if_pos haddr]
    set s := mem (spriteAddr + off) with hsdef
    have hs : s < 256 := by rw [hsdef]; exact hmem _
    have hq : ∀ r c, (drawColsN row numCols x0 s fb flag).1 r c =
        if r = row ∧ x0 ≤ c ∧ c < x0 + numCols ∧ Nat.testBit s (7 - (c - x0)) = true
        then !(fb r c) else fb r c :=
      fun r c => drawColsN_fst row numCols hcols x0 s hs fb flag r c
    obtain ⟨p, hp, hfst, hsnd⟩ :=
      ih (row + 1) (off + 1) (drawColsN row numCols x0 s fb flag).1
        (drawColsN row numCols x0 s fb flag).2 (by omega)
    refine ⟨p, hp, ?_, ?_⟩
    · intro r c
      rw [hfst r c, hq r c]
      by_cases hr : r = row
      · rw [if_neg (by rintro ⟨h1, -, -, -, -⟩; omega)]
        have harg : spriteAddr + off + (r - row) = spriteAddr + off := by omega
        by_cases hB : x0 ≤ c ∧ c < x0 + numCols ∧ Nat.testBit s (7 - (c - x0)) = true
        · rw [if_pos ⟨hr, hB.1, hB.2.1, hB.2.2⟩,
              if_pos ⟨by omega, by omega, hB.1, hB.2.1,
                by rw [harg, ← hsdef]; exact hB.2.2⟩]
        · rw [if_neg (by rintro ⟨-, h2, h3, h4⟩; exact hB ⟨h2, h3, h4⟩),
              if_neg (by
                rintro ⟨-, -, h2, h3, h4⟩
                refine hB ⟨h2, h3, ?_⟩
                rwa [harg, ← hsdef] at h4)]
      · have hBneg : ¬(r = row ∧ x0 ≤ c ∧ c < x0 + numCols
            ∧ Nat.testBit s (7 - (c - x0)) = true) := fun hh => hr hh.1
        rw [if_neg hBneg]
        by_cases hin : row + 1 ≤ r ∧ r < row + 1 + n
        · have harg : spriteAddr + (off + 1) + (r - (row + 1))
              = spriteAddr + off + (r - row) := by omega
          rw [harg]
          by_cases hC : x0 ≤ c ∧ c < x0 + numCols
              ∧ Nat.testBit (mem (spriteAddr + off + (r - row))) (7 - (c - x0)) = true
          · rw [if_pos ⟨hin.1, by omega, hC.1, hC.2.1, hC.2.2⟩,
                if_pos ⟨by omega, by omega, hC.1, hC.2.1, hC.2.2⟩]
          · rw [if_neg (by rintro ⟨-, -, h2, h3, h4⟩; exact hC ⟨h2, h3, h4⟩),
                if_neg (by rintro ⟨-, -, h2, h3, h4⟩; exact hC ⟨h2, h3, h4⟩)]
        · rw [if_neg (by rintro ⟨h1, h2, -⟩; exact hin ⟨h1, by omega⟩),
              if_neg (by rintro ⟨h1, h2, -⟩; exact hin ⟨by omega, by omega⟩)]
    · have hag : ∀ r c, row + 1 ≤ r → (drawColsN row numCols x0 s fb flag).1 r c = fb r c := by
        intro r c hr1
        rw [hq r c, if_neg]
        rintro ⟨h1, -⟩
        omega
      rw [hsnd,
          hitRowsN_congr mem spriteAddr x0 numCols n (row + 1) (off + 1) fb
            (drawColsN row numCols x0 s fb flag).1 (fun r c hr => hag r c hr),
          drawColsN_snd row numCols x0 s fb flag]
      simp only [hitRowsN]
      simp only [← hsdef]
      cases h1 : hitRowN fb row numCols x0 s <;>
        cases h2 : hitRowsN mem spriteAddr x0 numCols fb n (row + 1) (off + 1) <;>
          simp [h1, h2]

/-- `hitRowsN` holds exactly when some set sprite bit lands on an on
pixel inside the clipped rectangle. -/
lemma hitRowsN_iff (mem : Nat → Nat) (spriteAddr x0 numCols : Nat)
    (hcols : numCols ≤ 8) (hmem : ∀ a, mem a < 256) (fb : Nat → Nat → Bool) :
    ∀ m row off : Nat,
    (hitRowsN mem spriteAddr x0 numCols fb m row off = true
      ↔ ∃ r, row ≤ r ∧ r < row + m
          ∧ ∃ i, i < numCols
              ∧ Nat.testBit (mem (spriteAddr + off + (r - row))) (7 - i) = true
              ∧ fb r (x0 + i) = true) := by
  intro m
  induction m with
  | zero =>
    intro row off
    simp only [hitRowsN]
    constructor
    · intro h
      exact absurd h Bool.false_ne_true
    · rintro ⟨r, h1, h2, -⟩
      omega
  | succ n ih =>
    intro row off
    simp only [hitRowsN, Bool.or_eq_true]
    rw [hitRowN_iff row fb numCols hcols x0 _ (hmem _), ih (row + 1) (off + 1)]
    constructor
    · rintro (⟨i, hi, hb, hf⟩ | ⟨r, h1, h2, i, hi, hb, hf⟩)
      · refine ⟨row, le_refl _, by omega, i, hi, ?_, hf⟩
        rw [show spriteAddr + off + (row - row) = spriteAddr + off by omega]
        exact hb
      · refine ⟨r, by omega, by omega, i, hi, ?_, hf⟩
        rw [show spriteAddr + off + (r - row) = spriteAddr + (off + 1) + (r - (row + 1)) by omega]
        exact hb
    · rintro ⟨r, h1, h2, i, hi, hb, hf⟩
      by_cases hr : row + 1 ≤ r
      · right
        refine ⟨r, hr, by omega, i, hi, ?_, hf⟩
        rw [show spriteAddr + (off + 1) + (r - (row + 1)) = spriteAddr + off + (r - row) by omega]
        exact hb
      · have hreq : r = row := by omega
        left
        refine ⟨i, hi, ?_, ?_⟩
        · rw [show spriteAddr + off = spriteAddr + off + (r - row) by omega]
          exact hb
        · rw [← hreq]
          exact hf


/-! ## C10: frame effect of DXYN -/

/-- C10: a DXYN draw can only change frame-buffer pixels inside the
clipped rectangle of rows `[y0, min 32 (y0+N))` and columns
`[x0, min 64 (x0+8))` for `(x0, y0) = (regs X mod 64, regs Y mod 32)`;
memory, every register other than 0xF, the index register, both timers,
the call stack and the program counter are unchanged. -/
theorem c10_draw_frame : ∀ vm : VM, (∀ a, vm.mem a < 256) →
    vm.index + (vm.opcode &&& 0x000F) ≤ 4096 →
    ∃ vm', nib_d vm = .ok vm'
      ∧ (∀ r c,
          (r < vm.regs (regYof vm.opcode) % 32
            ∨ min 32 (vm.regs (regYof vm.opcode) % 32 + (vm.opcode &&& 0x000F)) ≤ r
            ∨ c < vm.regs (regXof vm.opcode) % 64
            ∨ min 64 (vm.regs (regXof vm.opcode) % 64 + 8) ≤ c) →
          vm'.fb r c = vm.fb r c)
      ∧ vm'.mem = vm.mem
      ∧ (∀ i, i ≠ 15 → vm'.regs i = vm.regs i)
      ∧ vm'.index = vm.index
      ∧ vm'.delayTimer = vm.delayTimer
      ∧ vm'.soundTimer = vm.soundTimer
      ∧ vm'.stack = vm.stack
      ∧ vm'.pc = vm.pc := by
  intro vm hmem hb
  obtain ⟨p, hp, hfst, hsnd⟩ :=
    drawRowsN_spec vm.mem vm.index (vm.regs (regXof vm.opcode) % 64)
      (min 64 (vm.regs (regXof vm.opcode) % 64 + 8) - vm.regs (regXof vm.opcode) % 64)
      (by omega) hmem
      (min 32 (vm.regs (regYof vm.opcode) % 32 + (vm.opcode &&& 0x000F))
        - vm.regs (regYof vm.opcode) % 32)
      (vm.regs (regYof vm.opcode) % 32) 0 vm.fb 0 (by omega)
  refine ⟨{ vm with fb := p.1, regs := updf vm.regs 15 p.2, shouldDraw := true },
    ?_, ?_, rfl, ?_, rfl, rfl, rfl, rfl, rfl⟩
  · simp only [nib_d]
    rw [hp]
  · intro r c hout
    show p.1 r c = vm.fb r c
    rw [hfst r c, if_neg]
    rintro ⟨h1, h2, h3, h4, -⟩
    rcases hout with h | h | h | h <;> omega
  · intro i hi
    simp [updf, hi]

def c10vm : VM := { baseVM with opcode := 0xD011 }

theorem c10_draw_frame_witness :
    ∃ vm', nib_d c10vm = .ok vm'
      ∧ (∀ r c, (r < 0 ∨ min 32 (0 + 1) ≤ r ∨ c < 0 ∨ min 64 (0 + 8) ≤ c) →
          vm'.fb r c = c10vm.fb r c)
      ∧ vm'.mem = c10vm.mem
      ∧ (∀ i, i ≠ 15 → vm'.regs i = c10vm.regs i)
      ∧ vm'.index = c10vm.index
      ∧ vm'.delayTimer = c10vm.delayTimer
      ∧ vm'.soundTimer = c10vm.soundTimer
      ∧ vm'.stack = c10vm.stack
      ∧ vm'.pc = c10vm.pc :=
  c10_draw_frame c10vm (by intro a; show (0 : Nat) < 256; decide) (by decide)


/-! ## C4: drawing the same sprite twice -/

/-- C4 (amended): with unchanged operand registers (X, Y ≠ 0xF, so the
first draw's flag write cannot alter them) and unchanged sprite memory,
drawing the same DXYN twice restores the frame buffer exactly; the
second draw leaves flag 0xF = 1 exactly when some set sprite bit inside
the clipped rectangle targets a pixel that was off in the original
buffer (so e.g. an all-zero sprite, or a sprite falling entirely on
originally-on pixels, leaves the flag 0, not 1). -/
theorem c4_double_draw : ∀ vm : VM, (∀ a, vm.mem a < 256) →
    vm.index + (vm.opcode &&& 0x000F) ≤ 4096 →
    regXof vm.opcode ≠ 15 → regYof vm.opcode ≠ 15 →
    ∃ vm1 vm2, nib_d vm = .ok vm1 ∧ nib_d vm1 = .ok vm2
      ∧ (∀ r c, vm2.fb r c = vm.fb r c)
      ∧ (vm2.regs 15 = 1 ↔ ∃ r c,
          vm.regs (regYof vm.opcode) % 32 ≤ r
          ∧ r < min 32 (vm.regs (regYof vm.opcode) % 32 + (vm.opcode &&& 0x000F))
          ∧ vm.regs (regXof vm.opcode) % 64 ≤ c
          ∧ c < min 64 (vm.regs (regXof vm.opcode) % 64 + 8)
          ∧ Nat.testBit (vm.mem (vm.index + (r - vm.regs (regYof vm.opcode) % 32)))
              (7 - (c - vm.regs (regXof vm.opcode) % 64)) = true
          ∧ vm.fb r c = false) := by
  intro vm hmem hb hX hY
  obtain ⟨p, hp, hfst, hsnd⟩ :=
    drawRowsN_spec vm.mem vm.index (vm.regs (regXof vm.opcode) % 64)
      (min 64 (vm.regs (regXof vm.opcode) % 64 + 8) - vm.regs (regXof vm.opcode) % 64)
      (by omega) hmem
      (min 32 (vm.regs (regYof vm.opcode) % 32 + (vm.opcode &&& 0x000F))
        - vm.regs (regYof vm.opcode) % 32)
      (vm.regs (regYof vm.opcode) % 32) 0 vm.fb 0 (by omega)
  obtain ⟨q, hq, hfst2, hsnd2⟩ :=
    drawRowsN_spec vm.mem vm.index (vm.regs (regXof vm.opcode) % 64)
      (min 64 (vm.regs (regXof vm.opcode) % 64 + 8) - vm.regs (regXof vm.opcode) % 64)
      (by omega) hmem
      (min 32 (vm.regs (regYof vm.opcode) % 32 + (vm.opcode &&& 0x000F))
        - vm.regs (regYof vm.opcode) % 32)
      (vm.regs (regYof vm.opcode) % 32) 0 p.1 0 (by omega)
  have hregX : updf vm.regs 15 p.2 (regXof vm.opcode) = vm.regs (regXof vm.opcode) := by
    simp [updf, hX]
  have hregY : updf vm.regs 15 p.2 (regYof vm.opcode) = vm.regs (regYof vm.opcode) := by
    simp [updf, hY]
  refine ⟨{ vm with fb := p.1, regs := updf vm.regs 15 p.2, shouldDraw := true },
    { vm with fb := q.1, regs := updf (updf vm.regs 15 p.2) 15 q.2, shouldDraw := true },
    ?_, ?_, ?_, ?_⟩
  · simp only [nib_d]
    rw [hp]
  · simp only [nib_d]
    rw [hregX, hregY, hq]
  · intro r c
    show q.1 r c = vm.fb r c
    rw [hfst2 r c, hfst r c]
    split_ifs with h
    · exact Bool.not_not _
    · rfl
  · show updf (updf vm.regs 15 p.2) 15 q.2 15 = 1 ↔ _
    have hv2 : updf (updf vm.regs 15 p.2) 15 q.2 15 = q.2 := by simp [updf]
    rw [hv2, hsnd2]
    have hone : ((if hitRowsN vm.mem vm.index (vm.regs (regXof vm.opcode) % 64)
        (min 64 (vm.regs (regXof vm.opcode) % 64 + 8) - vm.regs (regXof vm.opcode) % 64) p.1
        (min 32 (vm.regs (regYof vm.opcode) % 32 + (vm.opcode &&& 0x000F))
          - vm.regs (regYof vm.opcode) % 32)
        (vm.regs (regYof vm.opcode) % 32) 0 = true then 1 else 0) = 1)
        ↔ hitRowsN vm.mem vm.index (vm.regs (regXof vm.opcode) % 64)
            (min 64 (vm.regs (regXof vm.opcode) % 64 + 8) - vm.regs (regXof vm.opcode) % 64) p.1
            (min 32 (vm.regs (regYof vm.opcode) % 32 + (vm.opcode &&& 0x000F))
              - vm.regs (regYof vm.opcode) % 32)
            (vm.regs (regYof vm.opcode) % 32) 0 = true := by
      split_ifs with h
      · simp [h]
      · simp [h]
    rw [hone,
        hitRowsN_iff vm.mem vm.index (vm.regs (regXof vm.opcode) % 64)
          (min 64 (vm.regs (regXof vm.opcode) % 64 + 8) - vm.regs (regXof vm.opcode) % 64)
          (by omega) hmem p.1
          (min 32 (vm.regs (regYof vm.opcode) % 32 + (vm.opcode &&& 0x000F))
            - vm.regs (regYof vm.opcode) % 32)
          (vm.regs (regYof vm.opcode) % 32) 0]
    constructor
    · rintro ⟨r, hr1, hr2, i, hi, hbit, hpf⟩
      refine ⟨r, vm.regs (regXof vm.opcode) % 64 + i, hr1, by omega, by omega, by omega,
        ?_, ?_⟩
      · rw [show vm.index + (r - vm.regs (regYof vm.opcode) % 32)
              = vm.index + 0 + (r - vm.regs (regYof vm.opcode) % 32) by omega,
            show 7 - (vm.regs (regXof vm.opcode) % 64 + i - vm.regs (regXof vm.opcode) % 64)
              = 7 - i by omega]
        exact hbit
      · rw [hfst r (vm.regs (regXof vm.opcode) % 64 + i),
            if_pos ⟨hr1, hr2, by omega, by omega, by
              rw [show 7 - (vm.regs (regXof vm.opcode) % 64 + i
                  - vm.regs (regXof vm.opcode) % 64) = 7 - i by omega]
              exact hbit⟩] at hpf
        simpa using hpf
    · rintro ⟨r, c, h1, h2, h3, h4, hbit, hoff⟩
      refine ⟨r, h1, by omega, c - vm.regs (regXof vm.opcode) % 64, by omega, ?_, ?_⟩
      · rw [show 7 - (c - vm.regs (regXof vm.opcode) % 64)
              = 7 - (c - vm.regs (regXof vm.opcode) % 64) by rfl] at hbit
        rw [show vm.index + 0 + (r - vm.regs (regYof vm.opcode) % 32)
              = vm.index + (r - vm.regs (regYof vm.opcode) % 32) by omega]
        exact hbit
      · rw [show vm.regs (regXof vm.opcode) % 64 + (c - vm.regs (regXof vm.opcode) % 64)
              = c by omega]
        rw [hfst r c,
            if_pos ⟨h1, by omega, h3, by omega, by
              rw [show vm.index + 0 + (r - vm.regs (regYof vm.opcode) % 32)
                  = vm.index + (r - vm.regs (regYof vm.opcode) % 32) by omega]
              exact hbit⟩]
        rw [hoff]
        rfl


def c4vm : VM := { baseVM with opcode := 0xD011, mem := fun _ => 0x80, index := 512 }

theorem c4_double_draw_witness :
    ∃ vm1 vm2, nib_d c4vm = .ok vm1 ∧ nib_d vm1 = .ok vm2
      ∧ (∀ r c, vm2.fb r c = c4vm.fb r c)
      ∧ (vm2.regs 15 = 1 ↔ ∃ r c, 0 ≤ r ∧ r < min 32 (0 + 1) ∧ 0 ≤ c ∧ c < min 64 (0 + 8)
          ∧ Nat.testBit (c4vm.mem (512 + (r - 0))) (7 - (c - 0)) = true
          ∧ c4vm.fb r c = false) :=
  c4_double_draw c4vm (by intro a; show (0x80 : Nat) < 256; decide) (by decide)
    (by decide) (by decide)

/-- C4 counterexample: drawing the all-zero one-row sprite at (0, 0)
twice (opcode D011, memory all zero) leaves the flag register 0 after
the second draw, not 1 as the claim states for every sprite. -/
theorem c4_double_draw_counterexample :
    ((nib_d { baseVM with opcode := 0xD011 }).bind nib_d).map (fun v => v.regs 15)
      = .ok 0 := by
  rfl

end Chip8
